import Mathlib

/-! Verification of the wlroots-sys binding header: capability surface and handle
lifecycle.

The repository's binding header `wlroots-sys/src/wlroots.h` is a C preprocessor
file.  It is embedded here line by line as text, together with a small model of
the preprocessor constructs it uses (line comments, `#include <...>`,
`#ifdef` / `#endif`); the set of headers the file pulls in is computed from the
text for each value of the build switch `WLR_USE_UNSTABLE`.
-/

namespace Wlroots

/-! ## The header text -/

/-- The text of `wlroots-sys/src/wlroots.h`, one entry per line (line 1 first). -/
def wlroots_h : List String :=
[
  "// Stable interfaces",
  "",
  "#include <wlr/util/edges.h>",
  "#include <wlr/util/log.h>",
  "#include <wlr/util/region.h>",
  "",
  "#include <wlr/xcursor.h>",
  "",
  "#include <xcursor.h>",
  "",
  "#ifdef WLR_USE_UNSTABLE",
  "",
  "#include <wlr/backend.h>",
  "#include <wlr/backend/drm.h>",
  "#include <wlr/backend/headless.h>",
  "#include <wlr/backend/interface.h>",
  "#include <wlr/backend/libinput.h>",
  "#include <wlr/backend/multi.h>",
  "#include <wlr/backend/session.h>",
  "#include <wlr/backend/wayland.h>",
  "#include <wlr/backend/headless.h>",
  "#include <wlr/backend/x11.h>",
  "#include <wlr/backend/session/interface.h>",
  "",
  "#include <wlr/render/wlr_renderer.h>",
  "#include <wlr/render/egl.h>",
  "#include <wlr/render/gles2.h>",
  "#include <wlr/render/interface.h>",
  "#include <wlr/render/wlr_texture.h>",
  "",
  "// NOTE this is stable, but it relies on wlr_box.h which isn't",
  "#include <wlr/types/wlr_box.h>",
  "#include <wlr/types/wlr_buffer.h>",
  "#include <wlr/types/wlr_compositor.h>",
  "#include <wlr/types/wlr_cursor.h>",
  "#include <wlr/types/wlr_data_control_v1.h>",
  "#include <wlr/types/wlr_data_device.h>",
  "#include <wlr/types/wlr_foreign_toplevel_management_v1.h>",
  "#include <wlr/types/wlr_fullscreen_shell_v1.h>",
  "#include <wlr/types/wlr_gamma_control_v1.h>",
  "#include <wlr/types/wlr_gtk_primary_selection.h>",
  "#include <wlr/types/wlr_idle.h>",
  "#include <wlr/types/wlr_idle_inhibit_v1.h>",
  "#include <wlr/types/wlr_input_device.h>",
  "#include <wlr/types/wlr_input_inhibitor.h>",
  "#include <wlr/types/wlr_input_method_v2.h>",
  "#include <wlr/types/wlr_keyboard.h>",
  "#include <wlr/types/wlr_keyboard_group.h>",
  "#include <wlr/types/wlr_keyboard_shortcuts_inhibit_v1.h>",
  "//TODO: wlr_layer_shell_v1 omitted as it references a missing protocol:",
  "//#include <wlr/types/wlr_layer_shell_v1.h>",
  "#include <wlr/types/wlr_linux_dmabuf_v1.h>",
  "#include <wlr/types/wlr_list.h>",
  "#include <wlr/types/wlr_matrix.h>",
  "#include <wlr/types/wlr_output.h>",
  "#include <wlr/types/wlr_output_damage.h>",
  "#include <wlr/types/wlr_output_layout.h>",
  "#include <wlr/types/wlr_output_management_v1.h>",
  "//TODO: wlr_output_power_management_v1 omitted as it references a missing protocol:",
  "//#include <wlr/types/wlr_output_power_management_v1.h>",
  "#include <wlr/types/wlr_pointer.h>",
  "#include <wlr/types/wlr_pointer_constraints_v1.h>",
  "#include <wlr/types/wlr_pointer_gestures_v1.h>",
  "#include <wlr/types/wlr_presentation_time.h>",
  "#include <wlr/types/wlr_primary_selection.h>",
  "#include <wlr/types/wlr_primary_selection_v1.h>",
  "#include <wlr/types/wlr_region.h>",
  "#include <wlr/types/wlr_relative_pointer_v1.h>",
  "#include <wlr/types/wlr_screencopy_v1.h>",
  "#include <wlr/types/wlr_seat.h>",
  "#include <wlr/types/wlr_server_decoration.h>",
  "#include <wlr/types/wlr_surface.h>",
  "#include <wlr/types/wlr_switch.h>",
  "#include <wlr/types/wlr_tablet_pad.h>",
  "#include <wlr/types/wlr_tablet_tool.h>",
  "#include <wlr/types/wlr_tablet_v2.h>",
  "#include <wlr/types/wlr_text_input_v3.h>",
  "#include <wlr/types/wlr_touch.h>",
  "#include <wlr/types/wlr_virtual_keyboard_v1.h>",
  "#include <wlr/types/wlr_virtual_pointer_v1.h>",
  "#include <wlr/types/wlr_xcursor_manager.h>",
  "#include <wlr/types/wlr_xdg_decoration_v1.h>",
  "#include <wlr/types/wlr_xdg_output_v1.h>",
  "#include <wlr/types/wlr_xdg_shell.h>",
  "#include <wlr/types/wlr_xdg_shell_v6.h>",
  "",
  "#include <xwayland.h>",
  "#include <xkbcommon/xkbcommon.h>",
  "#include <pixman.h>",
  "",
  "#endif"]

/-! ## Preprocessor model -/

/-- One line of a header after lexical classification. -/
inductive Line where
  | blank
  | comment (text : String)
  | includeDirective (path : String)
  | ifdefDirective (sym : String)
  | endifDirective
  | errorDirective (msg : String)
  | code (text : String)
  deriving DecidableEq, Repr

/-- Strip `p` from the front of `s`, if `s` starts with `p`. -/
def dropPrefix : List Char → List Char → Option (List Char)
  | [], s => some s
  | _ :: _, [] => none
  | p :: ps, c :: cs => if p = c then dropPrefix ps cs else none

/-- Whether `p` occurs as a contiguous block somewhere in `s`. -/
def containsText (p : List Char) : List Char → Bool
  | [] => (dropPrefix p []).isSome
  | c :: cs => (dropPrefix p (c :: cs)).isSome || containsText p cs

/-- The characters of `s` up to the first `stop` (all of `s` if there is none). -/
def upTo (stop : Char) : List Char → List Char
  | [] => []
  | c :: cs => if c = stop then [] else c :: upTo stop cs

/-- Classify one line of text: a `//` comment, an `#include <path>`, an
`#ifdef SYM`, an `#endif`, an `#error msg`, an empty line, or other text. -/
def classify (l : String) : Line :=
  match l.data with
  | [] => .blank
  | cs =>
    match dropPrefix "//".data cs with
    | some t => .comment (String.mk t)
    | none =>
      match dropPrefix "#include <".data cs with
      | some t => .includeDirective (String.mk (upTo '>' t))
      | none =>
        match dropPrefix "#ifdef ".data cs with
        | some t => .ifdefDirective (String.mk t)
        | none =>
          match dropPrefix "#endif".data cs with
          | some _ => .endifDirective
          | none =>
            match dropPrefix "#error ".data cs with
            | some t => .errorDirective (String.mk t)
            | none => .code l

/-- Whether a line is live when the macros `defs` are defined: it is live when
every enclosing `#ifdef` names a defined macro. -/
def live (defs : List String) (guards : List String) : Bool :=
  guards.all fun g => defs.contains g

/-- Run the preprocessor over classified lines with the macros `defs` defined.
`guards` is the stack of symbols of the `#ifdef` blocks that are open.  The
result lists, in order, what the live lines produce: `Sum.inl path` for an
included header, `Sum.inr msg` for an `#error` diagnostic. -/
def preprocess (defs : List String) : List String → List Line → List (String ⊕ String)
  | _, [] => []
  | guards, .ifdefDirective s :: rest => preprocess defs (s :: guards) rest
  | guards, .endifDirective :: rest => preprocess defs guards.tail rest
  | guards, .includeDirective p :: rest =>
    if live defs guards then .inl p :: preprocess defs guards rest
    else preprocess defs guards rest
  | guards, .errorDirective m :: rest =>
    if live defs guards then .inr m :: preprocess defs guards rest
    else preprocess defs guards rest
  | guards, _ :: rest => preprocess defs guards rest

/-- The macros the build defines: `WLR_USE_UNSTABLE` exactly when the switch
is enabled. -/
def definedMacros (unstableEnabled : Bool) : List String :=
  if unstableEnabled then ["WLR_USE_UNSTABLE"] else []

/-- The classified lines of `wlroots.h`. -/
def headerLines : List Line := wlroots_h.map classify

/-- The headers `wlroots.h` includes, in order, for a value of the switch. -/
def includedHeaders (unstableEnabled : Bool) : List String :=
  (preprocess (definedMacros unstableEnabled) [] headerLines).filterMap Sum.getLeft?

/-- The build-time diagnostics `wlroots.h` raises for a value of the switch. -/
def diagnostics (unstableEnabled : Bool) : List String :=
  (preprocess (definedMacros unstableEnabled) [] headerLines).filterMap Sum.getRight?

/-- Every `#include` of the file paired with the stack of `#ifdef` symbols
around it (innermost first), whatever the build defines. -/
def guardedIncludes : List String → List Line → List (List String × String)
  | _, [] => []
  | guards, .ifdefDirective s :: rest => guardedIncludes (s :: guards) rest
  | guards, .endifDirective :: rest => guardedIncludes guards.tail rest
  | guards, .includeDirective p :: rest => (guards, p) :: guardedIncludes guards rest
  | guards, _ :: rest => guardedIncludes guards rest

/-- The headers listed in `#include` directives of `wlroots.h`, in any section. -/
def listedHeaders : List String :=
  (guardedIncludes [] headerLines).map Prod.snd

/-- The headers of the stable section: the includes outside every `#ifdef`. -/
def stableSection : List String :=
  ((guardedIncludes [] headerLines).filter fun gi => gi.1.isEmpty).map Prod.snd

/-- The headers of the section gated by `#ifdef WLR_USE_UNSTABLE`. -/
def unstableSection : List String :=
  ((guardedIncludes [] headerLines).filter fun gi => gi.1.contains "WLR_USE_UNSTABLE").map Prod.snd

/-- Whether the path `p` lies under the directory prefix `dir`. -/
def under (dir p : String) : Bool :=
  (dropPrefix dir.data p.data).isSome

/-- The six backend variants of the specification's tagged union. -/
inductive BackendVariant where
  | DRM | Wayland | X11 | Headless | Libinput | Multi
  deriving DecidableEq, Repr

/-- The header under `wlr/backend/` that declares a backend variant. -/
def BackendVariant.header : BackendVariant → String
  | .DRM => "wlr/backend/drm.h"
  | .Wayland => "wlr/backend/wayland.h"
  | .X11 => "wlr/backend/x11.h"
  | .Headless => "wlr/backend/headless.h"
  | .Libinput => "wlr/backend/libinput.h"
  | .Multi => "wlr/backend/multi.h"

/-- The API groups the specification names for the stable capability set. -/
inductive StableGroup where
  | geometryRegion | logging | cursorTheme
  deriving DecidableEq, Repr

/-- The stable group a header belongs to, following the specification's wording
(geometry/region utilities, logging setup, cursor-theme loading); `none` for a
header of no stable group. -/
def specStableGroup (path : String) : Option StableGroup :=
  if path = "wlr/util/edges.h" ∨ path = "wlr/util/region.h" then some .geometryRegion
  else if path = "wlr/util/log.h" then some .logging
  else if path = "wlr/xcursor.h" ∨ path = "xcursor.h" then some .cursorTheme
  else none

/-- The two protocol families whose headers `wlroots.h` leaves out. -/
inductive ExcludedFamily where
  | layerShell | outputPowerManagement
  deriving DecidableEq, Repr

/-- The module name of an excluded family. -/
def ExcludedFamily.module : ExcludedFamily → String
  | .layerShell => "wlr_layer_shell_v1"
  | .outputPowerManagement => "wlr_output_power_management_v1"

/-- The header that declares an excluded family. -/
def ExcludedFamily.header (f : ExcludedFamily) : String :=
  "wlr/types/" ++ f.module ++ ".h"

/-- The line of `wlroots.h` (counted from 1) that carries the family's TODO note;
the commented-out include is on the next line. -/
def ExcludedFamily.todoLine : ExcludedFamily → Nat
  | .layerShell => 50
  | .outputPowerManagement => 59

/-- Whether a text carries the words "protocol schema missing". -/
def saysSchemaMissing (text : String) : Bool :=
  containsText "protocol schema missing".data text.data

/-! ## Handle lifecycle and signal bridge

The wrapper layer (raw handles, listener/signal bridge, lifetime and ownership
tracker) is described by the specification only; the definitions below follow its
sections 3, 4.1, 4.2, 4.3 and 7.  Callbacks are opaque labels: an invocation is
recorded in a log, and what a callback does is not modelled. -/

/-- Modelled from the spec: the type tag of a native handle (section 3,
NativeHandle). -/
inductive TypeTag where
  | Output | Surface | Seat | Backend | Renderer | Buffer
  deriving DecidableEq, Repr

/-- Modelled from the spec: the kind of a native signal; every handle exposes a
`destroy` signal, other signals are numbered. -/
inductive SignalKind where
  | destroy
  | event (n : Nat)
  deriving DecidableEq, Repr

/-- Modelled from the spec: who is responsible for the eventual destruction of a
handle, the binding layer or the native library's own parent container (section 3,
OwnershipRecord). -/
inductive Owner where
  | bindingLayer
  | parentContainer
  deriving DecidableEq, Repr

/-- Modelled from the spec: the error taxonomy of section 7. -/
inductive BridgeError where
  | InvalidConfig
  | UseAfterDestroy
  | NotOwner
  | DoubleUnsubscribe
  | BackendError
  | ProtocolUnavailable
  deriving DecidableEq, Repr

/-- Modelled from the spec: a native handle, with its raw address, type tag and
local validity flag (section 3). -/
structure NativeHandle where
  rawAddress : Nat
  typeTag : TypeTag
  valid : Bool
  deriving DecidableEq, Repr

/-- Modelled from the spec: the per-handle ownership record (section 3). -/
structure OwnershipRecord where
  owner : Owner
  deriving DecidableEq, Repr

/-- Modelled from the spec: one subscription to a native signal: the node's
identity, the handle it is attached to (a weak reference, by handle index), the
signal and the callback (section 3, ListenerNode).  Its position in the
subscriber chain is its position in `Bridge.listeners`. -/
structure ListenerNode where
  id : Nat
  handle : Nat
  signal : SignalKind
  callback : Nat
  deriving DecidableEq, Repr

/-- Modelled from the spec: a handle together with its ownership record.  The
record exists for the lifetime of the handle (section 3, Relationships): `track`
creates it and the destroy signal ends it. -/
structure HandleSlot where
  handle : NativeHandle
  record : Option OwnershipRecord
  deriving DecidableEq, Repr

/-- Modelled from the spec: the state of the wrapper layer.  `handles` is the
arena of wrapped handles (a handle is named by its index), `listeners` holds the
subscriber chains of all signals in insertion order, `nextNode` is the identity the
next listener node receives, `invoked` logs callback invocations as
(node identity, callback) in the order they happen, and `nativeFrees` logs the
native free calls issued, by handle. -/
structure Bridge where
  handles : List HandleSlot
  listeners : List ListenerNode
  nextNode : Nat
  invoked : List (Nat × Nat)
  nativeFrees : List Nat
  deriving DecidableEq, Repr

/-- Modelled from the spec: the wrapper layer before any handle is wrapped. -/
def Bridge.init : Bridge :=
  { handles := [], listeners := [], nextNode := 0, invoked := [], nativeFrees := [] }

/-- Modelled from the spec: `isValid(handle) -> bool` reflects only the local
validity flag (section 4.1); an index that names no wrapped handle is not valid. -/
def isValid (s : Bridge) (h : Nat) : Bool :=
  match s.handles[h]? with
  | some slot => slot.handle.valid
  | none => false

/-- Modelled from the spec: the ownership record of a handle, if it has one. -/
def recordOf (s : Bridge) (h : Nat) : Option OwnershipRecord :=
  match s.handles[h]? with
  | some slot => slot.record
  | none => none

/-- Modelled from the spec: `wrap(rawPointer, typeTag) -> NativeHandle` constructs
a handle without taking ownership and without validating the pointer
(section 4.1).  The new handle is valid and has no ownership record yet; the
result is the new state and the handle's index. -/
def wrap (s : Bridge) (rawPointer : Nat) (typeTag : TypeTag) : Bridge × Nat :=
  ({ s with handles := s.handles ++
      [{ handle := { rawAddress := rawPointer, typeTag := typeTag, valid := true },
         record := none }] },
   s.handles.length)

/-- Modelled from the spec: `track(handle, owner) -> OwnershipRecord`
(section 4.3).  Operating on an invalidated handle raises `UseAfterDestroy`. -/
def track (s : Bridge) (h : Nat) (owner : Owner) :
    Except BridgeError (Bridge × OwnershipRecord) :=
  match s.handles[h]? with
  | some slot =>
    if slot.handle.valid then
      .ok ({ s with handles := s.handles.set h { slot with record := some ⟨owner⟩ } }, ⟨owner⟩)
    else .error .UseAfterDestroy
  | none => .error .UseAfterDestroy

/-- Modelled from the spec: the subscriber chain of one signal of one handle, in
insertion order (section 4.2). -/
def chain (s : Bridge) (h : Nat) (k : SignalKind) : List ListenerNode :=
  s.listeners.filter fun n => n.handle = h ∧ n.signal = k

/-- Modelled from the spec: `subscribe(handle, signalKind, callback) ->
ListenerNode` inserts the node at the end of the signal's subscriber chain
(section 4.2: first subscribed, first notified).  Operating on an invalidated
handle raises `UseAfterDestroy`. -/
def subscribe (s : Bridge) (h : Nat) (k : SignalKind) (callback : Nat) :
    Except BridgeError (Bridge × ListenerNode) :=
  if isValid s h then
    let node : ListenerNode := { id := s.nextNode, handle := h, signal := k, callback := callback }
    .ok ({ s with listeners := s.listeners ++ [node], nextNode := s.nextNode + 1 }, node)
  else .error .UseAfterDestroy

/-- Modelled from the spec: `unsubscribe(node)` removes the node from the chain;
calling it on a node that is no longer in a chain, because it was unsubscribed
before or released by the destroy signal, is the error `DoubleUnsubscribe`
(section 4.2, section 8 scenario B). -/
def unsubscribe (s : Bridge) (node : Nat) : Except BridgeError Bridge :=
  if s.listeners.any (fun n => n.id = node) then
    .ok { s with listeners := s.listeners.filter fun n => n.id ≠ node }
  else .error .DoubleUnsubscribe

/-- Modelled from the spec: one native emission of a signal: every node of the
signal's chain is invoked once, in chain order (section 4.2, invocation
contract). -/
def notify (s : Bridge) (h : Nat) (k : SignalKind) : Bridge :=
  { s with invoked := s.invoked ++ (chain s h k).map fun n => (n.id, n.callback) }

/-- Modelled from the spec: the Tracker's reaction to the destroy signal of a
handle (section 4.3): (a) the handle is marked invalid, (b) every listener node
still attached to it is released, (c) only bookkeeping is updated, no native free
is issued here; the ownership record ends with the handle. -/
def invalidate (s : Bridge) (h : Nat) : Bridge :=
  match s.handles[h]? with
  | some slot =>
    { s with
      handles := s.handles.set h { handle := { slot.handle with valid := false }, record := none }
      listeners := s.listeners.filter fun n => n.handle ≠ h }
  | none => s

/-- Modelled from the spec: the native destroy signal of a handle fires: the
subscribers of its destroy signal are notified in chain order, and the internal
finalizer registered at wrap time runs the Tracker's reaction (sections 4.2 and
4.3; scenario B has both listeners invoked before the nodes are released). -/
def fireDestroy (s : Bridge) (h : Nat) : Bridge :=
  invalidate (notify s h .destroy) h

/-- Modelled from the spec: `destroy(handle)` requests native destruction when the
ownership record shows binding-layer ownership; on a handle owned by a parent
container it fails with `NotOwner` and issues no native free; on an invalidated
handle it raises `UseAfterDestroy` (section 4.3).  The native free fires the
handle's destroy signal. -/
def destroy (s : Bridge) (h : Nat) : Except BridgeError Bridge :=
  if isValid s h then
    match recordOf s h with
    | some ⟨.bindingLayer⟩ =>
      .ok (fireDestroy { s with nativeFrees := s.nativeFrees ++ [h] } h)
    | _ => .error .NotOwner
  else .error .UseAfterDestroy

/-- Modelled from the spec: a native emission on a live object: the destroy signal
runs `fireDestroy` (a destruction triggered outside this layer), any other signal
notifies its chain.  A destroyed object emits nothing. -/
def emit (s : Bridge) (h : Nat) (k : SignalKind) : Bridge :=
  if isValid s h then
    match k with
    | .destroy => fireDestroy s h
    | .event _ => notify s h k
  else s

/-- Modelled from the spec: what can happen to the wrapper layer: the operations
of sections 4.1 to 4.3 and the native emissions of section 5. -/
inductive Op where
  | wrap (rawPointer : Nat) (typeTag : TypeTag)
  | track (h : Nat) (owner : Owner)
  | subscribe (h : Nat) (k : SignalKind) (callback : Nat)
  | unsubscribe (node : Nat)
  | destroy (h : Nat)
  | emit (h : Nat) (k : SignalKind)
  deriving DecidableEq, Repr

/-- Modelled from the spec: the effect of one operation, or the error it raises. -/
def step (s : Bridge) : Op → Except BridgeError Bridge
  | .wrap rawPointer typeTag => .ok (wrap s rawPointer typeTag).1
  | .track h owner => (track s h owner).map Prod.fst
  | .subscribe h k callback => (subscribe s h k callback).map Prod.fst
  | .unsubscribe node => unsubscribe s node
  | .destroy h => destroy s h
  | .emit h k => .ok (emit s h k)

/-- Modelled from the spec: the state after one operation; an operation that
raises an error leaves the state as it was. -/
def exec (s : Bridge) (op : Op) : Bridge :=
  match step s op with
  | .ok s' => s'
  | .error _ => s

/-- Modelled from the spec: the state after a sequence of operations. -/
def run (s : Bridge) (ops : List Op) : Bridge :=
  ops.foldl exec s

/-- The values of `isValid h` along a run: before the first operation and after
each one. -/
def validityHistory (s : Bridge) (h : Nat) : List Op → List Bool
  | [] => [isValid s h]
  | op :: ops => isValid s h :: validityHistory (exec s op) h ops

/-- The number of places in a history where `true` is directly followed by
`false`. -/
def falls : List Bool → Nat
  | true :: false :: rest => falls (false :: rest) + 1
  | _ :: rest => falls rest
  | [] => 0

/-- The number of `destroy h` calls that succeed along a run. -/
def destroySuccesses (s : Bridge) (h : Nat) : List Op → Nat
  | [] => 0
  | op :: ops =>
    (if op = .destroy h ∧ (destroy s h).toBool then 1 else 0) + destroySuccesses (exec s op) h ops

/-- Subscribe the callbacks `cbs`, in order, to signal `k` of handle `h`. -/
def subscribeAll (s : Bridge) (h : Nat) (k : SignalKind) (cbs : List Nat) : Bridge :=
  run s (cbs.map fun cb => Op.subscribe h k cb)

/-- The invocations logged between a state and a later one. -/
def invocationsSince (s s' : Bridge) : List (Nat × Nat) :=
  s'.invoked.drop s.invoked.length

/-- The invocations one operation adds to the log. -/
def invokedBy (s : Bridge) (op : Op) : List (Nat × Nat) :=
  invocationsSince s (exec s op)

/-- The bookkeeping invariant of the wrapper layer: listener nodes sit in the
chains in the order their identities were issued, every issued identity is below
`nextNode`, an invalidated handle has no ownership record, and listener nodes are
attached to valid handles only. -/
def WellFormed (s : Bridge) : Prop :=
  (s.listeners.map ListenerNode.id).Pairwise (· < ·) ∧
    (∀ n ∈ s.listeners, n.id < s.nextNode) ∧
    (∀ slot ∈ s.handles, slot.handle.valid = false → slot.record = none) ∧
    (∀ n ∈ s.listeners, isValid s n.handle = true)

/-! ## Capability surface: theorems about `wlroots.h` -/

/-- C1: with `WLR_USE_UNSTABLE` not defined, the headers `wlroots.h` includes are
exactly `wlr/util/edges.h`, `wlr/util/log.h`, `wlr/util/region.h`, `wlr/xcursor.h`
and `xcursor.h`, and each of them belongs to one of the stable groups
(geometry/region utility, logging, cursor theme). -/
theorem stable_only_includes :
    includedHeaders false =
        ["wlr/util/edges.h", "wlr/util/log.h", "wlr/util/region.h", "wlr/xcursor.h", "xcursor.h"] ∧
      (∀ p : String, p ∈ includedHeaders false ↔
        p = "wlr/util/edges.h" ∨ p = "wlr/util/log.h" ∨ p = "wlr/util/region.h" ∨
          p = "wlr/xcursor.h" ∨ p = "xcursor.h") ∧
      (includedHeaders false).all (fun p => (specStableGroup p).isSome) = true := by
  have h : includedHeaders false =
      ["wlr/util/edges.h", "wlr/util/log.h", "wlr/util/region.h", "wlr/xcursor.h", "xcursor.h"] := by
    decide
  refine ⟨h, ?_, by decide⟩
  intro p
  rw [h]
  simp

/-- C2: every header listed in `wlroots.h` under `wlr/backend/`, `wlr/render/` or
`wlr/types/` is included exactly when the switch is enabled; the header of each of
the six backend variants is included when the switch is enabled; and a stable-only
build includes no backend header. -/
theorem unstable_surface_gated (unstableEnabled : Bool) :
    (∀ p ∈ listedHeaders,
        (under "wlr/backend/" p = true ∨ under "wlr/render/" p = true ∨
            under "wlr/types/" p = true) →
          (p ∈ includedHeaders unstableEnabled ↔ unstableEnabled = true)) ∧
      (∀ v : BackendVariant, v.header ∈ includedHeaders true) ∧
      (∀ p ∈ includedHeaders false, under "wlr/backend" p = false) := by
  refine ⟨?_, ?_, by decide⟩
  · cases unstableEnabled <;> decide
  · intro v
    cases v <;> decide

/-- C3: for both values of the switch, neither `wlr/types/wlr_layer_shell_v1.h`
nor `wlr/types/wlr_output_power_management_v1.h` is among the included headers. -/
theorem excluded_headers_never_included (unstableEnabled : Bool) :
    "wlr/types/wlr_layer_shell_v1.h" ∉ includedHeaders unstableEnabled ∧
      "wlr/types/wlr_output_power_management_v1.h" ∉ includedHeaders unstableEnabled := by
  cases unstableEnabled <;> decide

/-- C4: the headers included with the switch enabled contain every header included
with it disabled, and the stable section and the section gated by
`WLR_USE_UNSTABLE` share no header; the disabled build includes the stable section
and the enabled build the stable section followed by the gated one. -/
theorem switch_partitions_surface :
    (∀ p : String, p ∈ includedHeaders false → p ∈ includedHeaders true) ∧
      (∀ p : String, p ∈ stableSection → p ∉ unstableSection) ∧
      includedHeaders false = stableSection ∧
      includedHeaders true = stableSection ++ unstableSection := by
  have h0 : includedHeaders false = stableSection := by decide
  have h1 : includedHeaders true = stableSection ++ unstableSection := by decide
  refine ⟨?_, ?_, h0, h1⟩
  · intro p hp
    rw [h1, ← h0]
    exact List.mem_append_left _ hp
  · have hd : ∀ p ∈ stableSection, p ∉ unstableSection := by decide
    exact hd

/-- C5 (as stated, refuted): with the switch enabled `wlroots.h` raises no
diagnostic at all, so none carries "protocol schema missing"; the words occur on
no line of the file. -/
theorem schema_missing_diagnostic_absent :
    diagnostics true = [] ∧
      (¬ ∃ d : String, d ∈ diagnostics true ∧ saysSchemaMissing d = true) ∧
      wlroots_h.all (fun l => !saysSchemaMissing l) = true := by
  have h : diagnostics true = [] := by decide
  refine ⟨h, ?_, by decide⟩
  rintro ⟨d, hd, -⟩
  rw [h] at hd
  exact absurd hd (List.not_mem_nil d)

/-- C5 (amended): for both values of the switch and each excluded family,
`wlroots.h` raises no diagnostic; it carries a TODO comment saying the module is
omitted as it references a missing protocol, followed by the include of the
family's header commented out, and the header is not included. -/
theorem excluded_family_commented_out (unstableEnabled : Bool) (f : ExcludedFamily) :
    diagnostics unstableEnabled = [] ∧
      wlroots_h[f.todoLine - 1]? =
        some ("//TODO: " ++ f.module ++ " omitted as it references a missing protocol:") ∧
      wlroots_h[f.todoLine]? = some ("//#include <" ++ f.header ++ ">") ∧
      f.header ∉ listedHeaders ∧
      f.header ∉ includedHeaders unstableEnabled := by
  cases unstableEnabled <;> cases f <;> decide

/-- C10 (as stated, refuted): with the switch disabled neither
`xkbcommon/xkbcommon.h` nor `pixman.h` is among the included headers. -/
theorem stable_build_lacks_xkbcommon_pixman :
    "xkbcommon/xkbcommon.h" ∉ includedHeaders false ∧ "pixman.h" ∉ includedHeaders false := by
  decide

/-- C10 (amended): `xkbcommon/xkbcommon.h` and `pixman.h` are included by
`wlroots.h` exactly when the switch is enabled; both sit in the section gated by
`WLR_USE_UNSTABLE`. -/
theorem xkbcommon_pixman_gated (unstableEnabled : Bool) :
    ("xkbcommon/xkbcommon.h" ∈ includedHeaders unstableEnabled ↔ unstableEnabled = true) ∧
      ("pixman.h" ∈ includedHeaders unstableEnabled ↔ unstableEnabled = true) ∧
      "xkbcommon/xkbcommon.h" ∈ unstableSection ∧ "pixman.h" ∈ unstableSection := by
  cases unstableEnabled <;> decide

/-! ## Handle lifecycle: supporting lemmas -/

theorem isValid_eq_of_handles {s t : Bridge} (h : Nat) (e : t.handles = s.handles) :
    isValid t h = isValid s h := by
  simp [isValid, e]

theorem isValid_lt {s : Bridge} {h : Nat} (hv : isValid s h = true) : h < s.handles.length := by
  unfold isValid at hv
  by_contra hlt
  rw [List.getElem?_eq_none (by omega)] at hv
  simp at hv

theorem isValid_wrap (s : Bridge) (r : Nat) (t : TypeTag) (h : Nat) :
    isValid (wrap s r t).1 h = (isValid s h || decide (h = s.handles.length)) := by
  unfold isValid wrap
  simp only
  rcases Nat.lt_trichotomy h s.handles.length with hlt | heq | hgt
  · rw [List.getElem?_append_left hlt]
    have : h ≠ s.handles.length := by omega
    simp [this]
  · subst heq
    simp
  · have : h ≠ s.handles.length := by omega
    rw [List.getElem?_eq_none (by simp; omega), List.getElem?_eq_none (by omega)]
    simp [this]

theorem isValid_track {s s' : Bridge} {h' : Nat} {o : Owner} {r : OwnershipRecord}
    (e : track s h' o = .ok (s', r)) (h : Nat) : isValid s' h = isValid s h := by
  unfold track at e
  split at e
  · rename_i slot hs
    split at e
    · simp only [Except.ok.injEq, Prod.mk.injEq] at e
      rw [← e.1]
      unfold isValid
      simp only [List.getElem?_set]
      by_cases hh : h' = h
      · subst hh
        simp [hs]
        have := List.getElem?_eq_some.mp hs
        obtain ⟨hl, _⟩ := this
        simp [hl]
      · simp [hh]
    · cases e
  · cases e

theorem isValid_notify (s : Bridge) (h' : Nat) (k : SignalKind) (h : Nat) :
    isValid (notify s h' k) h = isValid s h := rfl

theorem isValid_invalidate (s : Bridge) (h' h : Nat) :
    isValid (invalidate s h') h = (isValid s h && decide (h ≠ h')) := by
  unfold invalidate
  split
  · rename_i slot hs
    unfold isValid
    simp only [List.getElem?_set]
    by_cases hh : h' = h
    · subst hh
      obtain ⟨hl, _⟩ := List.getElem?_eq_some.mp hs
      simp [hl]
    · have : h ≠ h' := fun e => hh e.symm
      simp [hh, this]
  · rename_i hs
    by_cases hh : h = h'
    · subst hh
      simp [isValid, hs]
    · simp [hh]

theorem isValid_fireDestroy (s : Bridge) (h' h : Nat) :
    isValid (fireDestroy s h') h = (isValid s h && decide (h ≠ h')) := by
  unfold fireDestroy
  rw [isValid_invalidate, isValid_notify]

theorem exec_wrap (s : Bridge) (r : Nat) (t : TypeTag) : exec s (.wrap r t) = (wrap s r t).1 := rfl

theorem exec_emit (s : Bridge) (h : Nat) (k : SignalKind) : exec s (.emit h k) = emit s h k := rfl

theorem exec_track (s : Bridge) (h : Nat) (o : Owner) :
    exec s (.track h o) = s ∨ ∃ s' r, track s h o = .ok (s', r) ∧ exec s (.track h o) = s' := by
  cases hT : track s h o with
  | error e => left; simp [exec, step, hT, Except.map]
  | ok p => right; exact ⟨p.1, p.2, rfl, by simp [exec, step, hT, Except.map]⟩

theorem exec_subscribe (s : Bridge) (h : Nat) (k : SignalKind) (cb : Nat) :
    exec s (.subscribe h k cb) =
      if isValid s h then
        { s with
          listeners := s.listeners ++ [{ id := s.nextNode, handle := h, signal := k, callback := cb }]
          nextNode := s.nextNode + 1 }
      else s := by
  by_cases hv : isValid s h = true <;> simp [exec, step, subscribe, hv, Except.map]

theorem exec_unsubscribe (s : Bridge) (n : Nat) :
    exec s (.unsubscribe n) =
      if s.listeners.any (fun m => m.id = n) then
        { s with listeners := s.listeners.filter fun m => m.id ≠ n }
      else s := by
  by_cases hv : s.listeners.any (fun m => m.id = n) = true
  · simp only [exec, step, unsubscribe, hv, if_true]
  · simp only [exec, step, unsubscribe, hv]
    simp

theorem exec_destroy (s : Bridge) (h : Nat) :
    exec s (.destroy h) =
      if isValid s h = true ∧ recordOf s h = some ⟨.bindingLayer⟩ then
        fireDestroy { s with nativeFrees := s.nativeFrees ++ [h] } h
      else s := by
  by_cases hv : isValid s h = true
  · cases hr : recordOf s h with
    | none => simp [exec, step, destroy, hv, hr]
    | some r =>
      cases r with
      | mk o => cases o <;> simp [exec, step, destroy, hv, hr]
  · simp [exec, step, destroy, hv]

theorem isValid_exec_cases (s : Bridge) (op : Op) (h : Nat) :
    isValid (exec s op) h = isValid s h ∨
      (h = s.handles.length ∧ isValid (exec s op) h = true ∧ ∃ r t, op = .wrap r t) ∨
      ((op = .destroy h ∨ op = .emit h .destroy) ∧ isValid (exec s op) h = false) := by
  cases op with
  | wrap r t =>
    rw [exec_wrap, isValid_wrap]
    by_cases hh : h = s.handles.length
    · right; left
      exact ⟨hh, by simp [hh], r, t, rfl⟩
    · left; simp [hh]
  | track h' o =>
    rcases exec_track s h' o with e | ⟨s', r, hT, e⟩
    · left; rw [e]
    · left; rw [e]; exact isValid_track hT h
  | subscribe h' k cb =>
    left
    rw [exec_subscribe]
    split
    · exact isValid_eq_of_handles h rfl
    · rfl
  | unsubscribe n =>
    left
    rw [exec_unsubscribe]
    split
    · exact isValid_eq_of_handles h rfl
    · rfl
  | destroy h' =>
    rw [exec_destroy]
    split
    · rw [isValid_fireDestroy]
      have e : isValid { s with nativeFrees := s.nativeFrees ++ [h'] } h = isValid s h :=
        isValid_eq_of_handles h rfl
      rw [e]
      by_cases hh : h = h'
      · subst hh; right; right
        exact ⟨Or.inl rfl, by simp⟩
      · left; simp [hh]
    · left; rfl
  | emit h' k =>
    rw [exec_emit]
    unfold emit
    split
    · cases k with
      | destroy =>
        simp only
        rw [isValid_fireDestroy]
        by_cases hh : h = h'
        · subst hh; right; right
          exact ⟨Or.inr rfl, by simp⟩
        · left; simp [hh]
      | event n => left; rfl
    · left; rfl

theorem handles_length_exec (s : Bridge) (op : Op) :
    s.handles.length ≤ (exec s op).handles.length := by
  cases op with
  | wrap r t => rw [exec_wrap]; simp [wrap]
  | track h' o =>
    rcases exec_track s h' o with e | ⟨s', r, hT, e⟩
    · rw [e]
    · rw [e]
      unfold track at hT
      split at hT
      · split at hT
        · simp only [Except.ok.injEq, Prod.mk.injEq] at hT
          rw [← hT.1]; simp
        · cases hT
      · cases hT
  | subscribe h' k cb => rw [exec_subscribe]; split <;> simp
  | unsubscribe n => rw [exec_unsubscribe]; split <;> simp
  | destroy h' =>
    rw [exec_destroy]
    split
    · unfold fireDestroy invalidate notify
      simp only
      split <;> simp
    · exact le_refl _
  | emit h' k =>
    rw [exec_emit]
    unfold emit
    split
    · cases k with
      | destroy =>
        simp only
        unfold fireDestroy invalidate notify
        simp only
        split <;> simp
      | event n => simp [notify]
    · exact le_refl _

theorem invalid_exec {s : Bridge} {h : Nat} (hk : h < s.handles.length)
    (hinv : isValid s h = false) (op : Op) : isValid (exec s op) h = false := by
  rcases isValid_exec_cases s op h with e | ⟨e, _, _⟩ | ⟨_, e⟩
  · rw [e, hinv]
  · omega
  · exact e

theorem invalid_run {s : Bridge} {h : Nat} (hk : h < s.handles.length)
    (hinv : isValid s h = false) (ops : List Op) : isValid (run s ops) h = false := by
  induction ops generalizing s with
  | nil => exact hinv
  | cons op ops ih =>
    exact ih (lt_of_lt_of_le hk (handles_length_exec s op)) (invalid_exec hk hinv op)

theorem fall_cause {s : Bridge} {h : Nat} {op : Op} (hv : isValid s h = true)
    (hd : isValid (exec s op) h = false) : op = .destroy h ∨ op = .emit h .destroy := by
  rcases isValid_exec_cases s op h with e | ⟨e, _, _⟩ | ⟨e, _⟩
  · rw [e, hv] at hd; cases hd
  · have := isValid_lt hv; omega
  · exact e

theorem falls_false_cons (l : List Bool) : falls (false :: l) = falls l := by
  cases l <;> rfl

theorem falls_true_true (l : List Bool) : falls (true :: true :: l) = falls (true :: l) := rfl

theorem falls_true_false (l : List Bool) : falls (true :: false :: l) = falls l + 1 := by
  show falls (false :: l) + 1 = falls l + 1
  rw [falls_false_cons]

theorem validityHistory_head (s : Bridge) (h : Nat) (ops : List Op) :
    ∃ t, validityHistory s h ops = isValid s h :: t := by
  cases ops with
  | nil => exact ⟨[], rfl⟩
  | cons op ops => exact ⟨_, rfl⟩

theorem falls_invalid {s : Bridge} {h : Nat} (hk : h < s.handles.length)
    (hinv : isValid s h = false) (ops : List Op) :
    falls (validityHistory s h ops) = 0 := by
  induction ops generalizing s with
  | nil => simp [validityHistory, hinv, falls]
  | cons op ops ih =>
    have h1 := ih (lt_of_lt_of_le hk (handles_length_exec s op)) (invalid_exec hk hinv op)
    show falls (isValid s h :: validityHistory (exec s op) h ops) = 0
    rw [hinv, falls_false_cons]
    exact h1

theorem falls_le_one (s : Bridge) (h : Nat) (hk : h < s.handles.length) (ops : List Op) :
    falls (validityHistory s h ops) ≤ 1 := by
  induction ops generalizing s with
  | nil => cases hv : isValid s h <;> simp [validityHistory, hv, falls]
  | cons op ops ih =>
    have hk' := lt_of_lt_of_le hk (handles_length_exec s op)
    cases hv : isValid s h with
    | false => rw [falls_invalid hk hv]; omega
    | true =>
      show falls (isValid s h :: validityHistory (exec s op) h ops) ≤ 1
      obtain ⟨t, ht⟩ := validityHistory_head (exec s op) h ops
      cases hv' : isValid (exec s op) h with
      | false =>
        have h0 := falls_invalid hk' hv' ops
        rw [ht, hv'] at h0 ⊢
        rw [hv, falls_true_false]
        rw [falls_false_cons] at h0
        omega
      | true =>
        have h1 := ih (exec s op) hk'
        rw [ht, hv'] at h1 ⊢
        rw [hv, falls_true_true]
        exact h1

theorem falls_history_le_one (s : Bridge) (h : Nat) (ops : List Op) :
    falls (validityHistory s h ops) ≤ 1 := by
  induction ops generalizing s with
  | nil => cases hv : isValid s h <;> simp [validityHistory, hv, falls]
  | cons op ops ih =>
    by_cases hk : h < s.handles.length
    · exact falls_le_one s h hk (op :: ops)
    · have hinv : isValid s h = false := by
        cases hv : isValid s h with
        | false => rfl
        | true => exact absurd (isValid_lt hv) hk
      show falls (isValid s h :: validityHistory (exec s op) h ops) ≤ 1
      rw [hinv, falls_false_cons]
      exact ih (exec s op)

/-! ### The bookkeeping invariant holds in every reachable state -/

theorem wellFormed_init : WellFormed Bridge.init := by
  refine ⟨?_, ?_, ?_, ?_⟩ <;> simp [Bridge.init]

theorem wellFormed_invalidate {s : Bridge} (w : WellFormed s) (h : Nat) :
    WellFormed (invalidate s h) := by
  obtain ⟨w1, w2, w3, w4⟩ := w
  have hval := isValid_invalidate s h
  unfold invalidate at hval ⊢
  split
  · rename_i slot hs
    rw [hs] at hval
    refine ⟨?_, ?_, ?_, ?_⟩
    · exact w1.sublist ((List.filter_sublist s.listeners).map _)
    · intro n hn
      exact w2 n (List.mem_of_mem_filter hn)
    · intro sl hsl hv
      rcases List.mem_or_eq_of_mem_set hsl with hm | he
      · exact w3 sl hm hv
      · rw [he]
    · intro n hn
      obtain ⟨hm, hne⟩ := List.mem_filter.mp hn
      rw [hval, w4 n hm]
      simpa using hne
  · exact ⟨w1, w2, w3, w4⟩

theorem wellFormed_fireDestroy {s : Bridge} (w : WellFormed s) (h : Nat) :
    WellFormed (fireDestroy s h) :=
  wellFormed_invalidate (s := notify s h .destroy) w h

theorem wellFormed_exec {s : Bridge} (w : WellFormed s) (op : Op) : WellFormed (exec s op) := by
  obtain ⟨w1, w2, w3, w4⟩ := w
  cases op with
  | wrap r t =>
    rw [exec_wrap]
    refine ⟨w1, w2, ?_, ?_⟩
    · intro sl hsl hv
      simp only [wrap, List.mem_append, List.mem_singleton] at hsl
      rcases hsl with hm | he
      · exact w3 sl hm hv
      · rw [he] at hv; cases hv
    · intro n hn
      rw [isValid_wrap, w4 n hn]
      rfl
  | track h' o =>
    rcases exec_track s h' o with e | ⟨s', r, hT, e⟩
    · rw [e]; exact ⟨w1, w2, w3, w4⟩
    · rw [e]
      have hval := isValid_track hT
      unfold track at hT
      split at hT
      · rename_i slot hs
        split at hT
        · rename_i hvalid
          simp only [Except.ok.injEq, Prod.mk.injEq] at hT
          rw [← hT.1] at hval ⊢
          refine ⟨w1, w2, ?_, ?_⟩
          · intro sl hsl hv
            rcases List.mem_or_eq_of_mem_set hsl with hm | he
            · exact w3 sl hm hv
            · rw [he] at hv
              simp only at hv
              rw [hvalid] at hv; cases hv
          · intro n hn
            rw [hval]
            exact w4 n hn
        · cases hT
      · cases hT
  | subscribe h' k cb =>
    rw [exec_subscribe]
    split
    · rename_i hvalid
      refine ⟨?_, ?_, w3, ?_⟩
      · simp only [List.map_append, List.map_cons, List.map_nil]
        rw [List.pairwise_append]
        refine ⟨w1, List.pairwise_singleton _ _, ?_⟩
        intro a ha b hb
        simp only [List.mem_singleton] at hb
        obtain ⟨n, hn, rfl⟩ := List.mem_map.mp ha
        rw [hb]
        exact w2 n hn
      · intro n hn
        simp only [List.mem_append, List.mem_singleton] at hn
        rcases hn with hm | he
        · exact Nat.lt_succ_of_lt (w2 n hm)
        · rw [he]; exact Nat.lt_succ_self _
      · intro n hn
        simp only [List.mem_append, List.mem_singleton] at hn
        rcases hn with hm | he
        · exact w4 n hm
        · rw [he]; exact hvalid
    · exact ⟨w1, w2, w3, w4⟩
  | unsubscribe n =>
    rw [exec_unsubscribe]
    split
    · refine ⟨?_, ?_, w3, ?_⟩
      · exact w1.sublist ((List.filter_sublist s.listeners).map _)
      · intro m hm
        exact w2 m (List.mem_of_mem_filter hm)
      · intro m hm
        exact w4 m (List.mem_of_mem_filter hm)
    · exact ⟨w1, w2, w3, w4⟩
  | destroy h' =>
    rw [exec_destroy]
    split
    · exact wellFormed_fireDestroy (s := { s with nativeFrees := s.nativeFrees ++ [h'] })
        ⟨w1, w2, w3, w4⟩ h'
    · exact ⟨w1, w2, w3, w4⟩
  | emit h' k =>
    rw [exec_emit]
    unfold emit
    split
    · cases k with
      | destroy => exact wellFormed_fireDestroy ⟨w1, w2, w3, w4⟩ h'
      | event n => exact ⟨w1, w2, w3, w4⟩
    · exact ⟨w1, w2, w3, w4⟩

theorem wellFormed_run {s : Bridge} (w : WellFormed s) (ops : List Op) :
    WellFormed (run s ops) := by
  induction ops generalizing s with
  | nil => exact w
  | cons op ops ih => exact ih (wellFormed_exec w op)

theorem wellFormed_reachable (ops : List Op) : WellFormed (run Bridge.init ops) :=
  wellFormed_run wellFormed_init ops

/-! ### Emission and subscription order -/

theorem invoked_invalidate (s : Bridge) (h : Nat) : (invalidate s h).invoked = s.invoked := by
  unfold invalidate
  split <;> rfl

theorem invoked_fireDestroy (s : Bridge) (h : Nat) :
    (fireDestroy s h).invoked =
      s.invoked ++ (chain s h .destroy).map fun n => (n.id, n.callback) := by
  unfold fireDestroy
  rw [invoked_invalidate]
  rfl

theorem invokedBy_emit {s : Bridge} {h : Nat} (hv : isValid s h = true) (k : SignalKind) :
    invokedBy s (.emit h k) = (chain s h k).map fun n => (n.id, n.callback) := by
  unfold invokedBy invocationsSince
  rw [exec_emit]
  unfold emit
  rw [if_pos hv]
  cases k with
  | destroy =>
    simp only
    rw [invoked_fireDestroy, List.drop_left]
  | event n =>
    simp only [notify]
    rw [List.drop_left]

theorem invokedBy_destroy {s : Bridge} {h : Nat} (hv : isValid s h = true)
    (hr : recordOf s h = some ⟨.bindingLayer⟩) :
    invokedBy s (.destroy h) = (chain s h .destroy).map fun n => (n.id, n.callback) := by
  unfold invokedBy invocationsSince
  rw [exec_destroy, if_pos ⟨hv, hr⟩, invoked_fireDestroy]
  exact List.drop_left _ _

theorem chain_ids_increasing {s : Bridge} (w : WellFormed s) (h : Nat) (k : SignalKind) :
    ((chain s h k).map ListenerNode.id).Pairwise (· < ·) :=
  w.1.sublist ((List.filter_sublist s.listeners).map _)

theorem chain_exec_subscribe {s : Bridge} {h : Nat} (hv : isValid s h = true) (k : SignalKind)
    (cb : Nat) :
    chain (exec s (.subscribe h k cb)) h k =
      chain s h k ++ [{ id := s.nextNode, handle := h, signal := k, callback := cb }] := by
  rw [exec_subscribe, if_pos hv]
  simp [chain, List.filter_append]

theorem isValid_exec_subscribe (s : Bridge) (h' : Nat) (k : SignalKind) (cb : Nat) (h : Nat) :
    isValid (exec s (.subscribe h' k cb)) h = isValid s h := by
  rw [exec_subscribe]
  split
  · exact isValid_eq_of_handles h rfl
  · rfl

theorem recordOf_exec_subscribe (s : Bridge) (h' : Nat) (k : SignalKind) (cb : Nat) (h : Nat) :
    recordOf (exec s (.subscribe h' k cb)) h = recordOf s h := by
  rw [exec_subscribe]
  split <;> rfl

theorem subscribeAll_cons (s : Bridge) (h : Nat) (k : SignalKind) (cb : Nat) (cbs : List Nat) :
    subscribeAll s h k (cb :: cbs) = subscribeAll (exec s (.subscribe h k cb)) h k cbs := rfl

theorem isValid_subscribeAll (s : Bridge) (h' : Nat) (k : SignalKind) (cbs : List Nat) (h : Nat) :
    isValid (subscribeAll s h' k cbs) h = isValid s h := by
  induction cbs generalizing s with
  | nil => rfl
  | cons cb cbs ih => rw [subscribeAll_cons, ih, isValid_exec_subscribe]

theorem recordOf_subscribeAll (s : Bridge) (h' : Nat) (k : SignalKind) (cbs : List Nat) (h : Nat) :
    recordOf (subscribeAll s h' k cbs) h = recordOf s h := by
  induction cbs generalizing s with
  | nil => rfl
  | cons cb cbs ih => rw [subscribeAll_cons, ih, recordOf_exec_subscribe]

theorem chain_callbacks_subscribeAll {s : Bridge} {h : Nat} (hv : isValid s h = true)
    (k : SignalKind) (cbs : List Nat) :
    (chain (subscribeAll s h k cbs) h k).map ListenerNode.callback =
      (chain s h k).map ListenerNode.callback ++ cbs := by
  induction cbs generalizing s with
  | nil => simp [subscribeAll, run]
  | cons cb cbs ih =>
    rw [subscribeAll_cons, ih (by rw [isValid_exec_subscribe]; exact hv),
      chain_exec_subscribe hv]
    simp

theorem wellFormed_subscribeAll {s : Bridge} (w : WellFormed s) (h : Nat) (k : SignalKind)
    (cbs : List Nat) : WellFormed (subscribeAll s h k cbs) :=
  wellFormed_run w _

/-! ### Unsubscribing -/

theorem exec_of_error {s : Bridge} {op : Op} {e : BridgeError} (he : step s op = .error e) :
    exec s op = s := by
  simp [exec, he]

theorem unsubscribe_present {s : Bridge} {n : ListenerNode} (hn : n ∈ s.listeners) :
    unsubscribe s n.id = .ok { s with listeners := s.listeners.filter fun m => m.id ≠ n.id } := by
  unfold unsubscribe
  rw [if_pos]
  rw [List.any_eq_true]
  exact ⟨n, hn, by simp⟩

theorem unsubscribe_absent {s : Bridge} {i : Nat} (ha : ∀ m ∈ s.listeners, m.id ≠ i) :
    unsubscribe s i = .error .DoubleUnsubscribe := by
  unfold unsubscribe
  rw [if_neg]
  rw [List.any_eq_true]
  rintro ⟨m, hm, he⟩
  exact ha m hm (by simpa using he)

theorem node_eq_of_id_eq {s : Bridge} (w : WellFormed s) {m n : ListenerNode}
    (hm : m ∈ s.listeners) (hn : n ∈ s.listeners) (e : m.id = n.id) : m = n := by
  have hnd : (s.listeners.map ListenerNode.id).Nodup :=
    w.1.imp (fun hab => Nat.ne_of_lt hab)
  exact List.inj_on_of_nodup_map hnd hm hn e

theorem filter_id_eq_filter_node {s : Bridge} (w : WellFormed s) {n : ListenerNode}
    (hn : n ∈ s.listeners) :
    (s.listeners.filter fun m => m.id ≠ n.id) = s.listeners.filter fun m => m ≠ n := by
  apply List.filter_congr
  intro m hm
  by_cases e : m = n
  · subst e; simp
  · have : m.id ≠ n.id := fun he => e (node_eq_of_id_eq w hm hn he)
    simp [e, this]

theorem nextNode_le_exec (s : Bridge) (op : Op) : s.nextNode ≤ (exec s op).nextNode := by
  cases op with
  | wrap r t => exact le_refl _
  | track h' o =>
    rcases exec_track s h' o with e | ⟨s', r, hT, e⟩
    · rw [e]
    · rw [e]
      unfold track at hT
      split at hT
      · split at hT
        · simp only [Except.ok.injEq, Prod.mk.injEq] at hT
          rw [← hT.1]
        · cases hT
      · cases hT
  | subscribe h' k cb => rw [exec_subscribe]; split <;> simp
  | unsubscribe n => rw [exec_unsubscribe]; split <;> simp
  | destroy h' =>
    rw [exec_destroy]
    split
    · unfold fireDestroy invalidate notify
      simp only
      split <;> simp
    · exact le_refl _
  | emit h' k =>
    rw [exec_emit]
    unfold emit
    split
    · cases k with
      | destroy =>
        simp only
        unfold fireDestroy invalidate notify
        simp only
        split <;> simp
      | event n => simp [notify]
    · exact le_refl _

theorem listeners_exec (s : Bridge) (op : Op) (m : ListenerNode)
    (hm : m ∈ (exec s op).listeners) : m ∈ s.listeners ∨ m.id = s.nextNode := by
  cases op with
  | wrap r t => left; exact hm
  | track h' o =>
    rcases exec_track s h' o with e | ⟨s', r, hT, e⟩
    · rw [e] at hm; left; exact hm
    · rw [e] at hm
      unfold track at hT
      split at hT
      · split at hT
        · simp only [Except.ok.injEq, Prod.mk.injEq] at hT
          rw [← hT.1] at hm
          left; exact hm
        · cases hT
      · cases hT
  | subscribe h' k cb =>
    rw [exec_subscribe] at hm
    split at hm
    · simp only [List.mem_append, List.mem_singleton] at hm
      rcases hm with hm | he
      · left; exact hm
      · right; rw [he]
    · left; exact hm
  | unsubscribe n =>
    rw [exec_unsubscribe] at hm
    split at hm
    · left; exact List.mem_of_mem_filter hm
    · left; exact hm
  | destroy h' =>
    rw [exec_destroy] at hm
    split at hm
    · left
      unfold fireDestroy invalidate notify at hm
      simp only at hm
      split at hm
      · exact List.mem_of_mem_filter hm
      · exact hm
    · left; exact hm
  | emit h' k =>
    rw [exec_emit] at hm
    unfold emit at hm
    split at hm
    · cases k with
      | destroy =>
        left
        simp only at hm
        unfold fireDestroy invalidate notify at hm
        simp only at hm
        split at hm
        · exact List.mem_of_mem_filter hm
        · exact hm
      | event n => left; exact hm
    · left; exact hm

theorem absent_run {s : Bridge} {i : Nat} (ha : ∀ m ∈ s.listeners, m.id ≠ i)
    (hi : i < s.nextNode) (ops : List Op) : ∀ m ∈ (run s ops).listeners, m.id ≠ i := by
  induction ops generalizing s with
  | nil => exact ha
  | cons op ops ih =>
    apply ih (s := exec s op)
    · intro m hm
      rcases listeners_exec s op m hm with h1 | h2
      · exact ha m h1
      · omega
    · exact lt_of_lt_of_le hi (nextNode_le_exec s op)

theorem listeners_fireDestroy {s : Bridge} {h : Nat} (hv : isValid s h = true) :
    (fireDestroy s h).listeners = s.listeners.filter fun m => m.handle ≠ h := by
  have hl := isValid_lt hv
  unfold fireDestroy invalidate notify
  simp only
  split
  · rfl
  · rename_i hnone
    rw [List.getElem?_eq_getElem hl] at hnone
    cases hnone

theorem released_by_destroy_signal {s : Bridge} (w : WellFormed s) {n : ListenerNode}
    (hn : n ∈ s.listeners) :
    unsubscribe (exec s (.emit n.handle .destroy)) n.id = .error .DoubleUnsubscribe := by
  have hv := w.2.2.2 n hn
  apply unsubscribe_absent
  intro m hm
  rw [exec_emit] at hm
  unfold emit at hm
  rw [if_pos hv] at hm
  simp only at hm
  rw [listeners_fireDestroy hv] at hm
  obtain ⟨hm1, hm2⟩ := List.mem_filter.mp hm
  intro e
  have := node_eq_of_id_eq w hm1 hn e
  subst this
  simp at hm2

/-! ### Destroying -/

theorem destroy_invalid {s : Bridge} {h : Nat} (hinv : isValid s h = false) :
    destroy s h = .error .UseAfterDestroy := by
  simp [destroy, hinv]

theorem isValid_of_record {s : Bridge} (w : WellFormed s) {h : Nat} {r : OwnershipRecord}
    (hr : recordOf s h = some r) : isValid s h = true := by
  unfold recordOf at hr
  unfold isValid
  split at hr
  · rename_i slot hs
    have hm : slot ∈ s.handles := by
      obtain ⟨hl, he⟩ := List.getElem?_eq_some.mp hs
      rw [← he]
      exact List.getElem_mem hl
    cases hv : slot.handle.valid with
    | true => rfl
    | false =>
      rw [w.2.2.1 slot hm hv] at hr
      cases hr
  · cases hr

theorem destroy_parent_owned {s : Bridge} (w : WellFormed s) {h : Nat}
    (hr : recordOf s h = some ⟨.parentContainer⟩) : destroy s h = .error .NotOwner := by
  simp [destroy, isValid_of_record w hr, hr]

theorem destroy_ok {s s' : Bridge} {h : Nat} (e : destroy s h = .ok s') :
    isValid s h = true ∧ recordOf s h = some ⟨.bindingLayer⟩ ∧
      s' = fireDestroy { s with nativeFrees := s.nativeFrees ++ [h] } h := by
  unfold destroy at e
  split at e
  · rename_i hv
    split at e
    · rename_i hr
      simp only [Except.ok.injEq] at e
      exact ⟨hv, hr, e.symm⟩
    · cases e
  · cases e

theorem destroy_ok_invalidates {s s' : Bridge} {h : Nat} (e : destroy s h = .ok s') :
    h < s'.handles.length ∧ isValid s' h = false := by
  obtain ⟨hv, _, rfl⟩ := destroy_ok e
  have hl := isValid_lt hv
  constructor
  · have := handles_length_exec s (.destroy h)
    rw [exec_destroy] at this
    split at this
    · omega
    · rename_i hc
      exact absurd ⟨hv, by assumption⟩ hc
  · rw [isValid_fireDestroy]
    simp

theorem destroySuccesses_invalid {s : Bridge} {h : Nat} (hk : h < s.handles.length)
    (hinv : isValid s h = false) (ops : List Op) : destroySuccesses s h ops = 0 := by
  induction ops generalizing s with
  | nil => rfl
  | cons op ops ih =>
    unfold destroySuccesses
    rw [ih (lt_of_lt_of_le hk (handles_length_exec s op)) (invalid_exec hk hinv op),
      destroy_invalid hinv]
    simp [Except.toBool]

theorem destroySuccesses_le_one (s : Bridge) (h : Nat) (ops : List Op) :
    destroySuccesses s h ops ≤ 1 := by
  induction ops generalizing s with
  | nil => simp [destroySuccesses]
  | cons op ops ih =>
    unfold destroySuccesses
    split
    · rename_i hc
      obtain ⟨hop, hb⟩ := hc
      cases hd : destroy s h with
      | error e => rw [hd] at hb; simp [Except.toBool] at hb
      | ok s' =>
        have hex : exec s op = s' := by rw [hop]; simp [exec, step, hd]
        obtain ⟨hk, hinv⟩ := destroy_ok_invalidates hd
        rw [hex, destroySuccesses_invalid hk hinv]
    · have := ih (exec s op)
      omega

/-! ## Handle lifecycle: the claims -/

/-- C6: for a wrapped handle, `isValid` goes from true to false only by the
handle's destroy signal (an explicit `destroy` that succeeds, or the native
emission of the destroy signal), the destroy signal does make it false, once false
it is false after every later sequence of operations, and along any run it falls
from true to false at most once. -/
theorem validity_falls_once (s : Bridge) (h : Nat) (hk : h < s.handles.length) :
    (∀ op : Op, isValid s h = true → isValid (exec s op) h = false →
        op = .destroy h ∨ op = .emit h .destroy) ∧
      (isValid s h = true → isValid (exec s (.emit h .destroy)) h = false) ∧
      (isValid s h = false → ∀ ops : List Op, isValid (run s ops) h = false) ∧
      (∀ ops : List Op, falls (validityHistory s h ops) ≤ 1) := by
  refine ⟨fun op hv hd => fall_cause hv hd, ?_, fun hinv ops => invalid_run hk hinv ops,
    fun ops => falls_history_le_one s h ops⟩
  intro hv
  rw [exec_emit]
  unfold emit
  rw [if_pos hv]
  simp only
  rw [isValid_fireDestroy]
  simp

/-- Witness for C6: a surface is wrapped, tracked as owned by the binding layer
and destroyed; it stays invalid when a seat is wrapped and the surface is tracked
and destroyed again. -/
theorem validity_falls_once_witness :
    0 < (run Bridge.init [.wrap 7 .Surface, .track 0 .bindingLayer, .destroy 0]).handles.length ∧
      isValid
        (run (run Bridge.init [.wrap 7 .Surface, .track 0 .bindingLayer, .destroy 0])
          [.wrap 9 .Seat, .track 0 .bindingLayer, .destroy 0]) 0 = false :=
  ⟨by decide,
    (validity_falls_once
      (run Bridge.init [.wrap 7 .Surface, .track 0 .bindingLayer, .destroy 0]) 0
      (by decide)).2.2.1 (by decide) [.wrap 9 .Seat, .track 0 .bindingLayer, .destroy 0]⟩

/-- C7: in every reachable state and for every signal of a valid handle, an
emission invokes exactly the nodes of the signal's chain, each once, in chain
order, and the chain is in the order the node identities were issued; after the
callbacks `cbs` are subscribed in order, an emission invokes the callbacks
subscribed before, then `cbs` in order, no node twice; and when the binding layer
owns the handle the same holds for `destroy` on the destroy signal. -/
theorem emission_in_subscription_order (ops : List Op) (h : Nat) (k : SignalKind)
    (cbs : List Nat) (hv : isValid (run Bridge.init ops) h = true) :
    invokedBy (run Bridge.init ops) (.emit h k) =
        (chain (run Bridge.init ops) h k).map (fun n => (n.id, n.callback)) ∧
      ((chain (run Bridge.init ops) h k).map ListenerNode.id).Pairwise (· < ·) ∧
      (invokedBy (subscribeAll (run Bridge.init ops) h k cbs) (.emit h k)).map Prod.snd =
        (chain (run Bridge.init ops) h k).map ListenerNode.callback ++ cbs ∧
      ((invokedBy (subscribeAll (run Bridge.init ops) h k cbs) (.emit h k)).map Prod.fst).Nodup ∧
      (recordOf (run Bridge.init ops) h = some ⟨.bindingLayer⟩ → k = .destroy →
        (invokedBy (subscribeAll (run Bridge.init ops) h k cbs) (.destroy h)).map Prod.snd =
          (chain (run Bridge.init ops) h k).map ListenerNode.callback ++ cbs) := by
  have w := wellFormed_reachable ops
  have hv' : isValid (subscribeAll (run Bridge.init ops) h k cbs) h = true := by
    rw [isValid_subscribeAll]; exact hv
  have hcb := chain_callbacks_subscribeAll hv k cbs
  refine ⟨invokedBy_emit hv k, chain_ids_increasing w h k, ?_, ?_, ?_⟩
  · rw [invokedBy_emit hv' k, List.map_map, ← hcb]
    rfl
  · rw [invokedBy_emit hv' k, List.map_map]
    have hp := chain_ids_increasing (wellFormed_subscribeAll w h k cbs) h k
    exact hp.imp (fun hab => Nat.ne_of_lt hab)
  · intro hr hk
    subst hk
    have hr' : recordOf (subscribeAll (run Bridge.init ops) h .destroy cbs) h =
        some ⟨.bindingLayer⟩ := by
      rw [recordOf_subscribeAll]; exact hr
    rw [invokedBy_destroy hv' hr', List.map_map, ← hcb]
    rfl

/-- Witness for C7 (scenario B): listeners L1 = 11 and L2 = 22 are subscribed in
that order to the destroy signal of a surface owned by the binding layer; `destroy`
invokes 11 then 22. -/
theorem emission_in_subscription_order_witness :
    isValid (run Bridge.init [.wrap 7 .Surface, .track 0 .bindingLayer]) 0 = true ∧
      (invokedBy
          (subscribeAll (run Bridge.init [.wrap 7 .Surface, .track 0 .bindingLayer]) 0 .destroy
            [11, 22])
          (.destroy 0)).map Prod.snd = [11, 22] :=
  ⟨by decide,
    (emission_in_subscription_order [.wrap 7 .Surface, .track 0 .bindingLayer] 0 .destroy
      [11, 22] (by decide)).2.2.2.2 (by decide) rfl⟩

/-- C8: in every reachable state, for a node that is in a subscriber chain, the
first `unsubscribe` succeeds and removes that node and no other; a second
`unsubscribe` of the node fails with `DoubleUnsubscribe` and leaves the state, so
the chain, unchanged, and it fails the same way after any later operations.  A
node released by the destroy signal of its handle counts as unsubscribed:
`unsubscribe` on it fails with `DoubleUnsubscribe` as well. -/
theorem unsubscribe_once (ops : List Op) (n : ListenerNode)
    (hn : n ∈ (run Bridge.init ops).listeners) :
    ∃ s' : Bridge,
      unsubscribe (run Bridge.init ops) n.id = .ok s' ∧
        s'.listeners = (run Bridge.init ops).listeners.filter (fun m => m ≠ n) ∧
        n ∉ s'.listeners ∧
        (∀ (h : Nat) (k : SignalKind),
          chain s' h k = (chain (run Bridge.init ops) h k).filter (fun m => m ≠ n)) ∧
        unsubscribe s' n.id = .error .DoubleUnsubscribe ∧
        exec s' (.unsubscribe n.id) = s' ∧
        (∀ later : List Op, unsubscribe (run s' later) n.id = .error .DoubleUnsubscribe) ∧
        unsubscribe (exec (run Bridge.init ops) (.emit n.handle .destroy)) n.id =
          .error .DoubleUnsubscribe := by
  have w := wellFormed_reachable ops
  generalize run Bridge.init ops = s at hn w ⊢
  have hl := filter_id_eq_filter_node w hn
  have hex : ∃ s' : Bridge, s' = { s with listeners := s.listeners.filter fun m => m.id ≠ n.id } :=
    ⟨_, rfl⟩
  obtain ⟨s', hs'⟩ := hex
  have hls : s'.listeners = s.listeners.filter fun m => m.id ≠ n.id := by rw [hs']
  have hnx : s'.nextNode = s.nextNode := by rw [hs']
  have habs : ∀ m ∈ s'.listeners, m.id ≠ n.id := by
    intro m hm
    rw [hls] at hm
    simpa using (List.mem_filter.mp hm).2
  have herr := unsubscribe_absent habs
  refine ⟨s', ?_, ?_, ?_, ?_, herr, ?_, ?_, released_by_destroy_signal w hn⟩
  · rw [hs']
    exact unsubscribe_present hn
  · rw [hls, hl]
  · intro hmem
    exact habs n hmem rfl
  · intro h k
    simp only [chain]
    rw [hls, hl, List.filter_comm]
  · exact exec_of_error herr
  · intro later
    exact unsubscribe_absent (absent_run habs (by rw [hnx]; exact w.2.1 n hn) later)

/-- Witness for C8: the node of the one listener subscribed to a surface's destroy
signal is unsubscribed; a second `unsubscribe` fails with `DoubleUnsubscribe`. -/
theorem unsubscribe_once_witness :
    ({ id := 0, handle := 0, signal := .destroy, callback := 11 } : ListenerNode) ∈
        (run Bridge.init [.wrap 7 .Surface, .subscribe 0 .destroy 11]).listeners ∧
      ∃ s' : Bridge,
        unsubscribe (run Bridge.init [.wrap 7 .Surface, .subscribe 0 .destroy 11]) 0 = .ok s' ∧
          unsubscribe s' 0 = .error .DoubleUnsubscribe :=
  ⟨by decide,
    (unsubscribe_once [.wrap 7 .Surface, .subscribe 0 .destroy 11]
      { id := 0, handle := 0, signal := .destroy, callback := 11 } (by decide)).imp
      fun _ hs => ⟨hs.1, hs.2.2.2.2.1⟩⟩

/-- C9: in every reachable state, `destroy` on a handle whose ownership record
names a parent container fails with `NotOwner` and issues no native free; after a
`destroy` that succeeds, `destroy` on the same handle fails with `UseAfterDestroy`
after any later operations; and along any run at most one `destroy` of the handle
succeeds. -/
theorem destroy_at_most_once (ops : List Op) (h : Nat) :
    (recordOf (run Bridge.init ops) h = some ⟨.parentContainer⟩ →
        destroy (run Bridge.init ops) h = .error .NotOwner ∧
          (exec (run Bridge.init ops) (.destroy h)).nativeFrees =
            (run Bridge.init ops).nativeFrees) ∧
      (∀ s' : Bridge, destroy (run Bridge.init ops) h = .ok s' →
        ∀ later : List Op, destroy (run s' later) h = .error .UseAfterDestroy) ∧
      (∀ later : List Op, destroySuccesses (run Bridge.init ops) h later ≤ 1) := by
  have w := wellFormed_reachable ops
  refine ⟨?_, ?_, fun later => destroySuccesses_le_one _ h later⟩
  · intro hr
    have hd := destroy_parent_owned w hr
    exact ⟨hd, by rw [@exec_of_error _ (.destroy h) _ hd]⟩
  · intro s' hd later
    obtain ⟨hk, hinv⟩ := destroy_ok_invalidates hd
    exact destroy_invalid (invalid_run hk hinv later)

/-- Witness for C9: a backend handle tracked as owned by its parent container is
reachable; `destroy` on it fails with `NotOwner` and the log of native free calls
is unchanged. -/
theorem destroy_at_most_once_witness :
    recordOf (run Bridge.init [.wrap 3 .Backend, .track 0 .parentContainer]) 0 =
        some ⟨.parentContainer⟩ ∧
      destroy (run Bridge.init [.wrap 3 .Backend, .track 0 .parentContainer]) 0 =
        .error .NotOwner ∧
      (exec (run Bridge.init [.wrap 3 .Backend, .track 0 .parentContainer]) (.destroy 0)).nativeFrees =
        (run Bridge.init [.wrap 3 .Backend, .track 0 .parentContainer]).nativeFrees :=
  ⟨by decide,
    (destroy_at_most_once [.wrap 3 .Backend, .track 0 .parentContainer] 0).1 (by decide)⟩

end Wlroots
